import Mathlib

/-!
Shallow embedding of the PDF/image converter (src/app.py) and proofs about
its two conversion functions, pdf_to_images and images_to_pdf, together with
the Tab-2 UI handler step that sorts uploads by filename.

Library calls (fitz, PIL) are modelled by their observable outcomes: a page
render that may fail, a decoded image with a color mode, an encoded image
represented by its format, quality and raster. Streamlit output (st.error,
st.warning) is modelled as a list of diagnostics returned alongside the
value, and the Python None failure return is modelled as Option.none.
-/

namespace App

/-- Lowercasing as in the Python str.lower call on line 43/47; the format
literals involved are ASCII, so per-character ASCII lowercasing is faithful. -/
def lowerStr (s : String) : String := ⟨s.data.map Char.toLower⟩

/-- Pixel raster returned by page.get_pixmap (RGB samples, no alpha by default). -/
structure Pixmap where
  width : Nat
  height : Nat
  samples : List Nat
deriving Repr, DecidableEq

/-- A decoded PIL image: we track the color mode, the size and the pixel payload. -/
structure PILImage where
  mode : String
  width : Nat
  height : Nat
  data : List Nat
deriving Repr, DecidableEq

/-- A PDF page as seen through fitz: load_page followed by get_pixmap at the
zoom matrix Matrix(dpi / 72, dpi / 72) (lines 33, 36-37). The outcome depends
on the dpi; none models a raised library exception while rendering. -/
structure Page where
  render : Nat → Option Pixmap

/-- An opened document (fitz.open on line 32): its sequence of pages in
physical order. -/
structure PdfDoc where
  pages : List Page

/-- Image.frombytes("RGB", [pix.width, pix.height], pix.samples) on line 41:
the resulting PIL image always has mode "RGB". -/
def frombytes (pix : Pixmap) : PILImage :=
  { mode := "RGB", width := pix.width, height := pix.height, data := pix.samples }

/-- img.convert("RGB"): the codec rewrites the channel layout; we track the
mode change and keep the payload. -/
def convert_RGB (img : PILImage) : PILImage := { img with mode := "RGB" }

/-- Encoded image bytes produced by img.save(buffer, format, quality):
represented by the chosen format, the quality parameter and the raster that
was encoded. -/
structure EncodedImage where
  format : String
  quality : Option Nat
  image : PILImage
deriving Repr, DecidableEq

/-- The st.error / st.warning diagnostics emitted by app.py. The source
interpolates the exception text into the errPdfProcess and errDecode
messages; we track the message class and, where the source includes it, the
offending name. -/
inductive Diag where
  /-- line 63: generic exception handler of pdf_to_images -/
  | errPdfProcess : Diag
  /-- line 55: unsupported output format -/
  | errUnsupportedFormat : String → Diag
  /-- line 80: empty upload list -/
  | warnNoImages : Diag
  /-- line 99: one unreadable image, by filename -/
  | errDecode : String → Diag
  /-- line 104: no image could be read -/
  | errNoValid : Diag
deriving Repr, DecidableEq

/-- Observable outcome of pdf_to_images: the returned value (None or the
list of (filename, bytes) pairs), the diagnostics displayed, and whether
pdf_doc.close() was executed before returning. -/
structure RasterResult where
  result : Option (List (String × EncodedImage))
  diags : List Diag
  closed : Bool
deriving Repr, DecidableEq

/-- The per-page format branch of pdf_to_images, lines 43-56: PNG is saved
with no quality parameter, JPG converts an RGBA raster to RGB and saves at
quality 95, any other format hits the else branch (none here; the caller
turns it into the unsupported-format failure). Page index n is 0-based. -/
def encodePage (fmt : String) (n : Nat) (img : PILImage) : Option (String × EncodedImage) :=
  if lowerStr fmt = "png" then
    some ("page_" ++ toString (n + 1) ++ ".png",
          { format := "PNG", quality := none, image := img })
  else if lowerStr fmt = "jpg" then
    some ("page_" ++ toString (n + 1) ++ ".jpg",
          { format := "JPEG", quality := some 95,
            image := if img.mode = "RGBA" then convert_RGB img else img })
  else
    none

/-- The page loop of pdf_to_images, lines 35-58, starting at 0-based page
index n: renders each page, encodes it, and stops at the first failure. A
render exception is caught by the handler on line 62 (class errPdfProcess);
an unsupported format returns None directly from line 56. -/
def rasterPages (fmt : String) (dpi : Nat) :
    List Page → Nat → Except Diag (List (String × EncodedImage))
  | [], _ => Except.ok []
  | p :: rest, n =>
    match p.render dpi with
    | none => Except.error Diag.errPdfProcess
    | some pix =>
      match encodePage fmt n (frombytes pix) with
      | none => Except.error (Diag.errUnsupportedFormat fmt)
      | some pair =>
        match rasterPages fmt dpi rest (n + 1) with
        | Except.error d => Except.error d
        | Except.ok l => Except.ok (pair :: l)

/-- pdf_to_images, lines 17-64. The pdf argument is the outcome of
fitz.open on the given bytes: none models a buffer that fitz rejects (the
exception is caught on line 62). pdf_doc.close() on line 60 runs only after
the loop completed; the early return on line 56 and the exception handler
on lines 62-64 return without closing, which the closed flag records. -/
def pdf_to_images (pdf : Option PdfDoc) (output_format : String) (dpi : Nat) : RasterResult :=
  match pdf with
  | none => { result := none, diags := [Diag.errPdfProcess], closed := false }
  | some pdf_doc =>
    match rasterPages output_format dpi pdf_doc.pages 0 with
    | Except.error d => { result := none, diags := [d], closed := false }
    | Except.ok images => { result := some images, diags := [], closed := true }

/-- An uploaded image file as images_to_pdf receives it: its name and the
outcome of Image.open on line 88 (none models a decode exception). -/
structure UploadedFile where
  name : String
  decode : Option PILImage
deriving Repr, DecidableEq

/-- The color-mode normalization of images_to_pdf, lines 90-95: RGBA,
palette (P) and grayscale (L) images are converted to RGB; every other mode
falls through unchanged. -/
def normalizeImg (img : PILImage) : PILImage :=
  if img.mode = "RGBA" then convert_RGB img
  else if img.mode = "P" then convert_RGB img
  else if img.mode = "L" then convert_RGB img
  else img

/-- Decode plus normalization for one uploaded file. -/
def loadNormalized (f : UploadedFile) : Option PILImage :=
  f.decode.map normalizeImg

/-- The read loop of images_to_pdf, lines 86-101: collect the decoded and
normalized images in input order, and one errDecode diagnostic per
unreadable file, in input order. -/
def readImages : List UploadedFile → List PILImage × List Diag
  | [] => ([], [])
  | f :: rest =>
    match f.decode with
    | none => ((readImages rest).1, Diag.errDecode f.name :: (readImages rest).2)
    | some img => (normalizeImg img :: (readImages rest).1, (readImages rest).2)

/-- The serialized PDF of lines 108-117: the first image saved with
save_all and append_images set to the remaining images, so the page list is
the whole normalized list in order; resolution is the fixed 100.0 metadata
tag (an integral value, modelled as the natural number 100). -/
structure PdfOut where
  resolution : Nat
  pages : List PILImage
deriving Repr, DecidableEq

/-- Observable outcome of images_to_pdf: the returned value (None or the
PDF) and the diagnostics displayed. -/
structure AssembleResult where
  result : Option PdfOut
  diags : List Diag
deriving Repr, DecidableEq

/-- images_to_pdf, lines 67-121. An empty upload list warns and returns
None (lines 79-81); unreadable files are reported and skipped (lines
98-101, the abort on line 101 is commented out in the source); if nothing
was read the call fails (lines 103-105); otherwise the normalized images
are serialized in order (lines 108-117). -/
def images_to_pdf (image_files : List UploadedFile) : AssembleResult :=
  match image_files with
  | [] => { result := none, diags := [Diag.warnNoImages] }
  | _ :: _ =>
    match readImages image_files with
    | (pil_images, ds) =>
      match pil_images with
      | [] => { result := none, diags := ds ++ [Diag.errNoValid] }
      | first :: rest => { result := some { resolution := 100, pages := first :: rest }, diags := ds }

/-- Lexicographic comparison of filenames by character code point, the
order Python list.sort uses on str keys (line 215 sorts by f.name). -/
def nameLe : List Char → List Char → Bool
  | [], _ => true
  | _ :: _, [] => false
  | c :: cs, d :: ds =>
    if c.toNat < d.toNat then true
    else if d.toNat < c.toNat then false
    else nameLe cs ds

/-- Stable insertion of a file into an already sorted list: the inserted
file goes before the first entry it is ≤ to, so files keep their relative
order when names tie, as with Python (stable) sorting. -/
def insertFile (f : UploadedFile) : List UploadedFile → List UploadedFile
  | [] => [f]
  | g :: rest =>
    if nameLe f.name.data g.name.data then f :: g :: rest else g :: insertFile f rest

/-- uploaded_images.sort(key=lambda f: f.name) on line 215: a stable sort
of the uploads by filename, ascending. -/
def sortByName : List UploadedFile → List UploadedFile
  | [] => []
  | f :: rest => insertFile f (sortByName rest)

/-- The Tab-2 handler, lines 212-224: sort the uploads by filename, then
call images_to_pdf. (The handler only runs with a nonempty upload list.) -/
def tab2_convert (uploaded_images : List UploadedFile) : AssembleResult :=
  images_to_pdf (sortByName uploaded_images)

/-- Modelled library fact used by the round-trip property: PIL PNG encoding
is lossless and PIL decodes its own PNG output back to the same raster, so
feeding a rasterizer output pair back in as an upload decodes to the raster
that was encoded. -/
def rasterOutputToUpload (p : String × EncodedImage) : UploadedFile :=
  { name := p.1, decode := some p.2.image }

/-! Concrete fixtures used by witnesses and counterexamples. -/

/-- A small concrete pixmap. -/
def pixW : Pixmap := { width := 2, height := 2, samples := [7, 7, 7] }

/-- A page whose render succeeds at every dpi. -/
def pageW : Page := { render := fun _ => some pixW }

/-- A page whose render raises at every dpi. -/
def pageBad : Page := { render := fun _ => none }

/-- A two-page document that renders fine. -/
def docW : PdfDoc := { pages := [pageW, pageW] }

/-- A document whose second page fails to render. -/
def docBad : PdfDoc := { pages := [pageW, pageBad] }

/-- A document with zero pages (fitz opens such documents). -/
def docEmpty : PdfDoc := { pages := [] }

/-- A small RGB image. -/
def imgRGB : PILImage := { mode := "RGB", width := 1, height := 1, data := [3] }

/-- A second, distinguishable RGB image. -/
def imgRGB2 : PILImage := { mode := "RGB", width := 2, height := 2, data := [4] }

/-- A grayscale-with-alpha image, a mode the normalization chain does not touch. -/
def imgLA : PILImage := { mode := "LA", width := 2, height := 2, data := [9, 9] }

/-- Decodable upload named a.png. -/
def fileUpA : UploadedFile := { name := "a.png", decode := some imgRGB }

/-- Decodable upload named b.png, with a different image than a.png. -/
def fileUpB : UploadedFile := { name := "b.png", decode := some imgRGB2 }

/-- An unreadable upload. -/
def fileBad : UploadedFile := { name := "bad.png", decode := none }

/-- Decodable upload named c.png. -/
def fileUpC : UploadedFile := { name := "c.png", decode := some imgRGB }

/-- Three uploads of which one is unreadable. -/
def wFiles : List UploadedFile := [fileUpA, fileBad, fileUpC]

/-- An upload that decodes to the LA-mode image. -/
def fileLA : UploadedFile := { name := "x.png", decode := some imgLA }

/-! Lemmas about the rasterizer loop. -/

theorem lowerStr_png : lowerStr "png" = "png" := by decide

theorem lowerStr_jpg : lowerStr "jpg" = "jpg" := by decide

/-- A successful loop yields one pair per page. -/
theorem rasterPages_length (fmt : String) (dpi : Nat) :
    ∀ (ps : List Page) (n : Nat) (l : List (String × EncodedImage)),
      rasterPages fmt dpi ps n = Except.ok l → l.length = ps.length := by
  intro ps
  induction ps with
  | nil =>
    intro n l h
    simp only [rasterPages, Except.ok.injEq] at h
    simp [← h]
  | cons p rest ih =>
    intro n l h
    cases hr : p.render dpi with
    | none => simp [rasterPages, hr] at h
    | some pix =>
      cases he : encodePage fmt n (frombytes pix) with
      | none => simp [rasterPages, hr, he] at h
      | some pair =>
        cases hrec : rasterPages fmt dpi rest (n + 1) with
        | error d => simp [rasterPages, hr, he, hrec] at h
        | ok l2 =>
          simp only [rasterPages, hr, he, hrec, Except.ok.injEq] at h
          rw [← h]
          simp [ih (n + 1) l2 hrec]

/-- A render failure anywhere in the remaining pages aborts the loop. -/
theorem rasterPages_err (fmt : String) (dpi : Nat) :
    ∀ (ps : List Page) (n : Nat), (∃ p ∈ ps, p.render dpi = none) →
      ∃ d, rasterPages fmt dpi ps n = Except.error d := by
  intro ps
  induction ps with
  | nil =>
    intro n h
    obtain ⟨p, hp, _⟩ := h
    exact absurd hp (List.not_mem_nil p)
  | cons p rest ih =>
    intro n h
    cases hr : p.render dpi with
    | none => exact ⟨Diag.errPdfProcess, by simp [rasterPages, hr]⟩
    | some pix =>
      obtain ⟨q, hq, hqr⟩ := h
      rcases List.mem_cons.mp hq with rfl | hq2
      · rw [hr] at hqr; exact absurd hqr (by simp)
      · obtain ⟨d, hd⟩ := ih (n + 1) ⟨q, hq2, hqr⟩
        cases he : encodePage fmt n (frombytes pix) with
        | none => exact ⟨Diag.errUnsupportedFormat fmt, by simp [rasterPages, hr, he]⟩
        | some pair => exact ⟨d, by simp [rasterPages, hr, he, hd]⟩

theorem dot_png : ("." : String) ++ "png" = ".png" := by decide

theorem dot_jpg : ("." : String) ++ "jpg" = ".jpg" := by decide

/-- When every page renders and the format lowercases to a supported
literal, the loop succeeds and produces, per page in order, the 1-indexed
filename with the lowercased extension and the rendered raster. -/
theorem rasterPages_ok (fmt : String) (dpi : Nat)
    (hfmt : lowerStr fmt = "png" ∨ lowerStr fmt = "jpg") :
    ∀ (ps : List Page) (n : Nat), (∀ p ∈ ps, (p.render dpi).isSome) →
      ∃ l, rasterPages fmt dpi ps n = Except.ok l ∧ l.length = ps.length ∧
        ∀ i (hi : i < l.length) (hp : i < ps.length) pix,
          (ps.get ⟨i, hp⟩).render dpi = some pix →
          (l.get ⟨i, hi⟩).1 = "page_" ++ toString (n + i + 1) ++ "." ++ lowerStr fmt ∧
          (l.get ⟨i, hi⟩).2.image = frombytes pix := by
  intro ps
  induction ps with
  | nil =>
    intro n _
    refine ⟨[], rfl, rfl, ?_⟩
    intro i hi
    exact absurd hi (by simp)
  | cons p rest ih =>
    intro n hren
    have hp0 : (p.render dpi).isSome := hren p (List.mem_cons_self p rest)
    obtain ⟨pix, hpix⟩ := Option.isSome_iff_exists.mp hp0
    obtain ⟨l, hl, hlen, hidx⟩ :=
      ih (n + 1) (fun q hq => hren q (List.mem_cons_of_mem p hq))
    rcases hfmt with hf | hf
    · refine ⟨("page_" ++ toString (n + 1) ++ ".png",
          { format := "PNG", quality := none, image := frombytes pix }) :: l, ?_, ?_, ?_⟩
      · simp [rasterPages, hpix, encodePage, hf, hl]
      · simp [hlen]
      · intro i hi hp pix2 hpix2
        cases i with
        | zero =>
          simp only [List.get] at hpix2 ⊢
          rw [hpix] at hpix2
          cases hpix2
          refine ⟨?_, rfl⟩
          simp only [hf, Nat.add_zero, String.append_assoc, dot_png]
        | succ j =>
          simp only [List.get] at hpix2 ⊢
          have hj : j < l.length := by
            simp at hi
            omega
          have hjp : j < rest.length := by
            simp at hp
            omega
          obtain ⟨h1, h2⟩ := hidx j hj hjp pix2 hpix2
          refine ⟨?_, h2⟩
          rw [h1]
          have : n + 1 + j + 1 = n + (j + 1) + 1 := by omega
          rw [this]
    · refine ⟨("page_" ++ toString (n + 1) ++ ".jpg",
          { format := "JPEG", quality := some 95, image := frombytes pix }) :: l, ?_, ?_, ?_⟩
      · have hnp : ¬ lowerStr fmt = "png" := by
          rw [hf]; decide
        simp [rasterPages, hpix, encodePage, hf, hnp, hl, frombytes, convert_RGB]
      · simp [hlen]
      · intro i hi hp pix2 hpix2
        cases i with
        | zero =>
          simp only [List.get] at hpix2 ⊢
          rw [hpix] at hpix2
          cases hpix2
          refine ⟨?_, rfl⟩
          simp only [hf, Nat.add_zero, String.append_assoc, dot_jpg]
        | succ j =>
          simp only [List.get] at hpix2 ⊢
          have hj : j < l.length := by
            simp at hi
            omega
          have hjp : j < rest.length := by
            simp at hp
            omega
          obtain ⟨h1, h2⟩ := hidx j hj hjp pix2 hpix2
          refine ⟨?_, h2⟩
          rw [h1]
          have : n + 1 + j + 1 = n + (j + 1) + 1 := by omega
          rw [this]

/-- For supported formats the loop only consults the lowercased format, so
two formats with the same supported lowercasing run identically. -/
theorem rasterPages_congr (fmt gmt : String) (dpi : Nat)
    (h : lowerStr fmt = lowerStr gmt)
    (hs : lowerStr fmt = "png" ∨ lowerStr fmt = "jpg") :
    ∀ (ps : List Page) (n : Nat), rasterPages fmt dpi ps n = rasterPages gmt dpi ps n := by
  intro ps
  induction ps with
  | nil => intro n; rfl
  | cons p rest ih =>
    intro n
    cases hr : p.render dpi with
    | none => simp [rasterPages, hr]
    | some pix =>
      rcases hs with hf | hf

      · have hg : lowerStr gmt = "png" := h.symm.trans hf
        simp [rasterPages, hr, encodePage, hf, hg, ih (n + 1)]
      · have hg : lowerStr gmt = "jpg" := h.symm.trans hf
        have hnp : ¬ lowerStr fmt = "png" := by rw [hf]; decide
        have hnp2 : ¬ lowerStr gmt = "png" := by rw [hg]; decide
        simp [rasterPages, hr, encodePage, hf, hg, hnp, hnp2, ih (n + 1)]

/-! Lemmas about the assembler. -/

/-- The images collected by the read loop are the decoded-and-normalized
images, in input order. -/
theorem readImages_fst :
    ∀ files : List UploadedFile, (readImages files).1 = files.filterMap loadNormalized := by
  intro files
  induction files with
  | nil => rfl
  | cons f rest ih =>
    cases hd : f.decode with
    | none => simp [readImages, hd, List.filterMap_cons, loadNormalized, ih]
    | some img => simp [readImages, hd, List.filterMap_cons, loadNormalized, ih]

/-- The diagnostics collected by the read loop are one decode error per
unreadable file, in input order. -/
theorem readImages_snd :
    ∀ files : List UploadedFile,
      (readImages files).2 =
        (files.filter fun f => f.decode.isNone).map fun f => Diag.errDecode f.name := by
  intro files
  induction files with
  | nil => rfl
  | cons f rest ih =>
    cases hd : f.decode with
    | none => simp [readImages, hd, List.filter_cons, ih]
    | some img => simp [readImages, hd, List.filter_cons, ih]

/-- When at least one image was read, the assembler returns the serialized
PDF whose pages are exactly the normalized images in order, alongside the
decode diagnostics. -/
theorem images_to_pdf_some (files : List UploadedFile) (a : PILImage) (as : List PILImage)
    (hne : files ≠ []) (hfm : files.filterMap loadNormalized = a :: as) :
    images_to_pdf files =
      { result := some { resolution := 100, pages := a :: as },
        diags := (readImages files).2 } := by
  cases files with
  | nil => exact absurd rfl hne
  | cons f rest =>
    have h1 := readImages_fst (f :: rest)
    rcases hri : readImages (f :: rest) with ⟨pil, ds⟩
    rw [hri] at h1
    simp only at h1
    rw [h1.symm] at hfm
    simp only [images_to_pdf, hri, hfm]

/-- When no image could be read, the assembler fails with the decode
diagnostics followed by the no-valid-images error. -/
theorem images_to_pdf_none (files : List UploadedFile)
    (hne : files ≠ []) (hfm : files.filterMap loadNormalized = []) :
    images_to_pdf files =
      { result := none, diags := (readImages files).2 ++ [Diag.errNoValid] } := by
  cases files with
  | nil => exact absurd rfl hne
  | cons f rest =>
    have h1 := readImages_fst (f :: rest)
    rcases hri : readImages (f :: rest) with ⟨pil, ds⟩
    rw [hri] at h1
    simp only at h1
    rw [h1.symm] at hfm
    simp only [images_to_pdf, hri, hfm]

/-- One page is produced per decodable input. -/
theorem filterMap_loadNormalized_length :
    ∀ files : List UploadedFile,
      (files.filterMap loadNormalized).length =
        (files.filter fun f => f.decode.isSome).length := by
  intro files
  induction files with
  | nil => rfl
  | cons f rest ih =>
    cases hd : f.decode with
    | none => simp [List.filterMap_cons, List.filter_cons, loadNormalized, hd, ih]
    | some img => simp [List.filterMap_cons, List.filter_cons, loadNormalized, hd, ih]

/-- A nonempty all-decodable input list leaves at least one image after the
read loop. -/
theorem filterMap_loadNormalized_ne_nil (files : List UploadedFile)
    (hne : files ≠ []) (hdec : ∀ f ∈ files, (f.decode).isSome) :
    files.filterMap loadNormalized ≠ [] := by
  cases files with
  | nil => exact absurd rfl hne
  | cons f rest =>
    have hf : (f.decode).isSome := hdec f (List.mem_cons_self f rest)
    obtain ⟨img, himg⟩ := Option.isSome_iff_exists.mp hf
    simp [List.filterMap_cons, loadNormalized, himg]

/-! Lemmas about the filename sort of the Tab-2 handler. -/

/-- nameLe is total. -/
theorem nameLe_total : ∀ a b : List Char, nameLe a b = true ∨ nameLe b a = true := by
  intro a
  induction a with
  | nil => intro b; left; rfl
  | cons c cs ih =>
    intro b
    cases b with
    | nil => right; rfl
    | cons d ds =>
      simp only [nameLe]
      rcases Nat.lt_trichotomy c.toNat d.toNat with h | h | h
      · left; rw [if_pos h]
      · rw [h]
        simp only [Nat.lt_irrefl, if_false]
        exact ih ds
      · right; rw [if_pos h]

/-- nameLe is transitive. -/
theorem nameLe_trans :
    ∀ a b c : List Char, nameLe a b = true → nameLe b c = true → nameLe a c = true := by
  intro a
  induction a with
  | nil => intro b c _ _; rfl
  | cons x xs ih =>
    intro b c h1 h2
    cases b with
    | nil => simp [nameLe] at h1
    | cons y ys =>
      cases c with
      | nil => simp [nameLe] at h2
      | cons z zs =>
        simp only [nameLe] at h1 h2 ⊢
        rcases Nat.lt_trichotomy x.toNat y.toNat with hxy | hxy | hxy
        · rcases Nat.lt_trichotomy y.toNat z.toNat with hyz | hyz | hyz
          · rw [if_pos (by omega)]
          · rw [if_pos (by omega)]
          · rw [if_neg (by omega), if_pos hyz] at h2
            exact absurd h2 (by simp)
        · rcases Nat.lt_trichotomy y.toNat z.toNat with hyz | hyz | hyz
          · rw [if_pos (by omega)]
          · rw [if_neg (by omega), if_neg (by omega)]
            rw [if_neg (by omega), if_neg (by omega)] at h1
            rw [if_neg (by omega), if_neg (by omega)] at h2
            exact ih ys zs h1 h2
          · rw [if_neg (by omega), if_pos hyz] at h2
            exact absurd h2 (by simp)
        · rw [if_neg (by omega), if_pos hxy] at h1
          exact absurd h1 (by simp)

/-- Membership through stable insertion. -/
theorem mem_insertFile {a f : UploadedFile} :
    ∀ {l : List UploadedFile}, a ∈ insertFile f l ↔ a = f ∨ a ∈ l := by
  intro l
  induction l with
  | nil => simp [insertFile]
  | cons g rest ih =>
    simp only [insertFile]
    by_cases h : nameLe f.name.data g.name.data = true
    · rw [if_pos h]
      simp [List.mem_cons]
    · rw [if_neg h]
      simp only [List.mem_cons, ih]
      tauto

/-- Insertion grows the list by one. -/
theorem length_insertFile (f : UploadedFile) :
    ∀ l : List UploadedFile, (insertFile f l).length = l.length + 1 := by
  intro l
  induction l with
  | nil => rfl
  | cons g rest ih =>
    simp only [insertFile]
    by_cases h : nameLe f.name.data g.name.data = true
    · rw [if_pos h]; rfl
    · rw [if_neg h]; simp [ih]

/-- Sorting preserves membership. -/
theorem mem_sortByName {a : UploadedFile} :
    ∀ {l : List UploadedFile}, a ∈ sortByName l ↔ a ∈ l := by
  intro l
  induction l with
  | nil => simp [sortByName]
  | cons f rest ih =>
    simp only [sortByName, mem_insertFile, List.mem_cons, ih]

/-- Sorting preserves length. -/
theorem length_sortByName :
    ∀ l : List UploadedFile, (sortByName l).length = l.length := by
  intro l
  induction l with
  | nil => rfl
  | cons f rest ih => simp [sortByName, length_insertFile, ih]

/-- Inserting into a sorted list keeps it sorted. -/
theorem pairwise_insertFile {f : UploadedFile} :
    ∀ {l : List UploadedFile},
      l.Pairwise (fun a b => nameLe a.name.data b.name.data = true) →
      (insertFile f l).Pairwise (fun a b => nameLe a.name.data b.name.data = true) := by
  intro l
  induction l with
  | nil => intro _; simp [insertFile]
  | cons g rest ih =>
    intro h
    rw [List.pairwise_cons] at h
    obtain ⟨hg, hrest⟩ := h
    simp only [insertFile]
    by_cases hle : nameLe f.name.data g.name.data = true
    · rw [if_pos hle, List.pairwise_cons]
      refine ⟨?_, List.pairwise_cons.mpr ⟨hg, hrest⟩⟩
      intro b hb
      rcases List.mem_cons.mp hb with rfl | hb2
      · exact hle
      · exact nameLe_trans _ _ _ hle (hg b hb2)
    · rw [if_neg hle, List.pairwise_cons]
      refine ⟨?_, ih hrest⟩
      intro b hb
      rcases mem_insertFile.mp hb with hbf | hb2
      · rcases nameLe_total f.name.data g.name.data with h2 | h2
        · exact absurd h2 hle
        · rw [hbf]
          exact h2
      · exact hg b hb2

/-- The Tab-2 sort leaves the uploads in ascending filename order. -/
theorem pairwise_sortByName :
    ∀ l : List UploadedFile,
      (sortByName l).Pairwise (fun a b => nameLe a.name.data b.name.data = true) := by
  intro l
  induction l with
  | nil => simp [sortByName]
  | cons f rest ih => exact pairwise_insertFile ih

/-! Claim theorems. -/

/-- C1: for a well-formed document (every page renders), a supported format
literal and a positive dpi, pdf_to_images returns exactly one (filename,
bytes) pair per page, named page_1.ext through page_N.ext in the physical
page order, each pair carrying the raster rendered from its page. -/
theorem C1_rasterize_full_page_list (doc : PdfDoc) (fmt : String) (dpi : Nat)
    (hfmt : fmt = "png" ∨ fmt = "jpg") (_hdpi : 0 < dpi)
    (hwf : ∀ p ∈ doc.pages, (p.render dpi).isSome) :
    ∃ l, (pdf_to_images (some doc) fmt dpi).result = some l ∧
      l.length = doc.pages.length ∧
      ∀ i (hi : i < l.length) (hp : i < doc.pages.length) pix,
        (doc.pages.get ⟨i, hp⟩).render dpi = some pix →
        (l.get ⟨i, hi⟩).1 = "page_" ++ toString (i + 1) ++ "." ++ fmt ∧
        (l.get ⟨i, hi⟩).2.image = frombytes pix := by
  have hlow : lowerStr fmt = fmt := by
    rcases hfmt with rfl | rfl
    · exact lowerStr_png
    · exact lowerStr_jpg
  have hsupp : lowerStr fmt = "png" ∨ lowerStr fmt = "jpg" := by
    rcases hfmt with rfl | rfl
    · exact Or.inl lowerStr_png
    · exact Or.inr lowerStr_jpg
  obtain ⟨l, hl, hlen, hidx⟩ := rasterPages_ok fmt dpi hsupp doc.pages 0 hwf
  refine ⟨l, ?_, hlen, ?_⟩
  · simp [pdf_to_images, hl]
  · intro i hi hp pix hpix
    obtain ⟨h1, h2⟩ := hidx i hi hp pix hpix
    refine ⟨?_, h2⟩
    rw [h1, hlow]
    simp

/-- Witness for C1 at a concrete two-page document. -/
theorem C1_witness :
    ∃ l, (pdf_to_images (some docW) "png" 200).result = some l ∧
      l.length = docW.pages.length ∧
      ∀ i (hi : i < l.length) (hp : i < docW.pages.length) pix,
        (docW.pages.get ⟨i, hp⟩).render 200 = some pix →
        (l.get ⟨i, hi⟩).1 = "page_" ++ toString (i + 1) ++ "." ++ "png" ∧
        (l.get ⟨i, hi⟩).2.image = frombytes pix :=
  C1_rasterize_full_page_list docW "png" 200 (Or.inl rfl) (by decide) (by decide)

/-- C2 counterexample: calling images_to_pdf itself with the uploads named
b.png then a.png keeps the caller-supplied order: the first PDF page holds
the b.png image, not the a.png image, so the assembler does not sort. -/
theorem C2_counterexample :
    (images_to_pdf [fileUpB, fileUpA]).result =
      some { resolution := 100, pages := [imgRGB2, imgRGB] } ∧
    imgRGB2 ≠ imgRGB := by decide

/-- C2 (amended): images_to_pdf itself preserves the caller-supplied input
order; the ascending lexicographic filename sort is performed by the Tab-2
UI handler before the call, so the handler pipeline emits pages in
ascending filename order. -/
theorem C2_order_preserved_sort_in_ui (files : List UploadedFile)
    (hne : files ≠ []) (hdec : ∀ f ∈ files, (f.decode).isSome) :
    (∃ out, (images_to_pdf files).result = some out ∧
        out.pages = files.filterMap loadNormalized) ∧
    (∃ out, (tab2_convert files).result = some out ∧
        out.pages = (sortByName files).filterMap loadNormalized) ∧
    (sortByName files).Pairwise (fun a b => nameLe a.name.data b.name.data = true) := by
  have hfm := filterMap_loadNormalized_ne_nil files hne hdec
  obtain ⟨a, as, ha⟩ := List.exists_cons_of_ne_nil hfm
  have hsne : sortByName files ≠ [] := by
    intro hc
    have h2 := length_sortByName files
    rw [hc] at h2
    cases files with
    | nil => exact hne rfl
    | cons f rest => simp at h2
  have hsdec : ∀ f ∈ sortByName files, (f.decode).isSome :=
    fun f hf => hdec f (mem_sortByName.mp hf)
  have hsfm := filterMap_loadNormalized_ne_nil (sortByName files) hsne hsdec
  obtain ⟨b, bs, hb⟩ := List.exists_cons_of_ne_nil hsfm
  refine ⟨⟨{ resolution := 100, pages := a :: as }, ?_, ?_⟩,
    ⟨{ resolution := 100, pages := b :: bs }, ?_, ?_⟩, pairwise_sortByName files⟩
  · rw [images_to_pdf_some files a as hne ha]
  · rw [ha]
  · simp only [tab2_convert]
    rw [images_to_pdf_some (sortByName files) b bs hsne hb]
  · rw [hb]

/-- Witness for C2 (amended) at uploads supplied in reverse name order. -/
theorem C2_witness :
    (∃ out, (images_to_pdf [fileUpB, fileUpA]).result = some out ∧
        out.pages = [fileUpB, fileUpA].filterMap loadNormalized) ∧
    (∃ out, (tab2_convert [fileUpB, fileUpA]).result = some out ∧
        out.pages = (sortByName [fileUpB, fileUpA]).filterMap loadNormalized) ∧
    (sortByName [fileUpB, fileUpA]).Pairwise
      (fun a b => nameLe a.name.data b.name.data = true) :=
  C2_order_preserved_sort_in_ui [fileUpB, fileUpA] (by decide) (by decide)

/-- C3 counterexample: with a successfully opened document and the
unsupported format bmp, the call returns None from inside the loop without
ever executing the close call. -/
theorem C3_counterexample :
    (pdf_to_images (some docW) "bmp" 200).result = none ∧
    (pdf_to_images (some docW) "bmp" 200).closed = false := by decide

/-- C3 (amended): the document handle is released exactly on the successful
exit path: the closed flag equals success of the returned value, so the
unsupported-format early return and the exception paths skip the close. -/
theorem C3_closed_iff_success (pdf : Option PdfDoc) (fmt : String) (dpi : Nat) :
    (pdf_to_images pdf fmt dpi).closed = (pdf_to_images pdf fmt dpi).result.isSome := by
  cases pdf with
  | none => rfl
  | some doc =>
    cases h : rasterPages fmt dpi doc.pages 0 <;> simp [pdf_to_images, h]

/-- C4: rasterization is all-or-nothing: a successful return covers every
page of the document, and a render failure on any page makes the whole
call return None, never a proper prefix of the pages. -/
theorem C4_all_or_nothing (doc : PdfDoc) (fmt : String) (dpi : Nat) :
    (∀ l, (pdf_to_images (some doc) fmt dpi).result = some l →
        l.length = doc.pages.length) ∧
    ((∃ p ∈ doc.pages, p.render dpi = none) →
        (pdf_to_images (some doc) fmt dpi).result = none) := by
  constructor
  · intro l h
    cases hr : rasterPages fmt dpi doc.pages 0 with
    | error d => simp [pdf_to_images, hr] at h
    | ok l2 =>
      simp only [pdf_to_images, hr, Option.some.injEq] at h
      rw [← h]
      exact rasterPages_length fmt dpi doc.pages 0 l2 hr
  · intro hex
    obtain ⟨d, hd⟩ := rasterPages_err fmt dpi doc.pages 0 hex
    simp [pdf_to_images, hd]

/-- Witness for C4 at a document whose second page fails to render. -/
theorem C4_witness : (pdf_to_images (some docBad) "png" 200).result = none :=
  (C4_all_or_nothing docBad "png" 200).2 (by decide)

/-- C5: each unreadable image yields one decode diagnostic and is skipped;
the call succeeds exactly when at least one readable image remains, and a
successful output has one page per readable input. -/
theorem C5_skip_unreadable (files : List UploadedFile) :
    ((images_to_pdf files).result.isSome ↔ ∃ f ∈ files, (f.decode).isSome) ∧
    (∀ out, (images_to_pdf files).result = some out →
        out.pages.length = (files.filter fun f => f.decode.isSome).length) ∧
    (∀ out, (images_to_pdf files).result = some out →
        (images_to_pdf files).diags =
          (files.filter fun f => f.decode.isNone).map fun f => Diag.errDecode f.name) := by
  cases files with
  | nil =>
    refine ⟨?_, ?_, ?_⟩
    · simp [images_to_pdf]
    · intro out h; simp [images_to_pdf] at h
    · intro out h; simp [images_to_pdf] at h
  | cons f rest =>
    cases hfm : (f :: rest).filterMap loadNormalized with
    | nil =>
      have hnone := images_to_pdf_none (f :: rest) (by simp) hfm
      have hall : ∀ g ∈ f :: rest, loadNormalized g = none := List.filterMap_eq_nil_iff.mp hfm
      refine ⟨?_, ?_, ?_⟩
      · rw [hnone]
        constructor
        · intro h; simp at h
        · rintro ⟨g, hg, hgs⟩
          have h2 := hall g hg
          obtain ⟨img, himg⟩ := Option.isSome_iff_exists.mp hgs
          simp only [loadNormalized, himg] at h2
          simp at h2
      · intro out h; rw [hnone] at h; simp at h
      · intro out h; rw [hnone] at h; simp at h
    | cons a as =>
      have hsome := images_to_pdf_some (f :: rest) a as (by simp) hfm
      refine ⟨?_, ?_, ?_⟩
      · rw [hsome]
        constructor
        · intro _
          have hmem : a ∈ (f :: rest).filterMap loadNormalized := by
            rw [hfm]; exact List.mem_cons_self a as
          obtain ⟨g, hg, hgl⟩ := List.mem_filterMap.mp hmem
          refine ⟨g, hg, ?_⟩
          cases hd : g.decode with
          | none => simp only [loadNormalized, hd] at hgl; simp at hgl
          | some img => simp
        · intro _; simp
      · intro out h
        rw [hsome] at h
        simp only [Option.some.injEq] at h
        rw [← h]
        show (a :: as).length = _
        rw [← hfm]
        exact filterMap_loadNormalized_length (f :: rest)
      · intro out h
        rw [hsome]
        show (readImages (f :: rest)).2 = _
        exact readImages_snd (f :: rest)

/-- Witness for C5 on three uploads with one unreadable: the call succeeds
and reports exactly the decode diagnostics of the unreadable inputs. -/
theorem C5_witness :
    (images_to_pdf wFiles).result.isSome ∧
    (images_to_pdf wFiles).diags =
      (wFiles.filter fun f => f.decode.isNone).map fun f => Diag.errDecode f.name :=
  ⟨(C5_skip_unreadable wFiles).1.mpr ⟨fileUpA, by decide, rfl⟩,
   (C5_skip_unreadable wFiles).2.2 { resolution := 100, pages := [imgRGB, imgRGB] } (by decide)⟩

/-- C6 counterexample: an LA-mode (grayscale with alpha) image is embedded
unchanged: the PDF page keeps mode LA, which has an alpha channel and is
not 24-bit RGB. -/
theorem C6_counterexample :
    (images_to_pdf [fileLA]).result =
      some { resolution := 100, pages := [imgLA] } ∧
    imgLA.mode ≠ "RGB" := by decide

/-- C6 (amended): the normalization chain converts exactly the modes RGBA,
P and L to RGB and passes every other mode through unchanged; the pages of
a successful assembly are the decoded inputs after this normalization. -/
theorem C6_normalize_modes (img : PILImage) (files : List UploadedFile) :
    ((normalizeImg img).mode =
      if img.mode = "RGBA" ∨ img.mode = "P" ∨ img.mode = "L" then "RGB" else img.mode) ∧
    (∀ out, (images_to_pdf files).result = some out →
        out.pages = files.filterMap loadNormalized) := by
  constructor
  · by_cases h1 : img.mode = "RGBA"
    · simp [normalizeImg, convert_RGB, h1]
    · by_cases h2 : img.mode = "P"
      · simp [normalizeImg, convert_RGB, h1, h2]
      · by_cases h3 : img.mode = "L"
        · simp [normalizeImg, convert_RGB, h1, h2, h3]
        · simp [normalizeImg, h1, h2, h3]
  · intro out h
    cases files with
    | nil => simp [images_to_pdf] at h
    | cons f rest =>
      cases hfm : (f :: rest).filterMap loadNormalized with
      | nil =>
        rw [images_to_pdf_none (f :: rest) (by simp) hfm] at h
        simp at h
      | cons a as =>
        rw [images_to_pdf_some (f :: rest) a as (by simp) hfm] at h
        simp only [Option.some.injEq] at h
        rw [← h]

/-- Witness for C6 (amended) at the LA-mode upload. -/
theorem C6_witness :
    ({ resolution := 100, pages := [imgLA] } : PdfOut).pages =
      [fileLA].filterMap loadNormalized :=
  (C6_normalize_modes imgLA [fileLA]).2 { resolution := 100, pages := [imgLA] } (by decide)

/-- C7 counterexample: the format PNG is not one of the two lowercase
literals yet the call succeeds; and on a zero-page document the format bmp
is never checked, so the call returns an empty list instead of failing. -/
theorem C7_counterexample :
    ((pdf_to_images (some docW) "PNG" 200).result).isSome = true ∧
    (pdf_to_images (some docEmpty) "bmp" 200).result = some [] := by decide

/-- C7 (amended): a format whose lowercasing is neither png nor jpg makes
the call return None on every document with at least one page; when the
first page renders, the surfaced diagnostic is the unsupported-format
error. On a zero-page document the format is never checked. -/
theorem C7_unsupported_format_fails (doc : PdfDoc) (fmt : String) (dpi : Nat)
    (h1 : lowerStr fmt ≠ "png") (h2 : lowerStr fmt ≠ "jpg") :
    (doc.pages ≠ [] → (pdf_to_images (some doc) fmt dpi).result = none) ∧
    (∀ p rest pix, doc.pages = p :: rest → p.render dpi = some pix →
      (pdf_to_images (some doc) fmt dpi).diags = [Diag.errUnsupportedFormat fmt]) := by
  constructor
  · intro hne
    cases hp : doc.pages with
    | nil => exact absurd hp hne
    | cons p rest =>
      cases hr : p.render dpi with
      | none => simp [pdf_to_images, hp, rasterPages, hr]
      | some pix => simp [pdf_to_images, hp, rasterPages, hr, encodePage, h1, h2]
  · intro p rest pix hp hr
    simp [pdf_to_images, hp, rasterPages, hr, encodePage, h1, h2]

/-- Witness for C7 (amended) at the format bmp on a rendering document. -/
theorem C7_witness :
    (pdf_to_images (some docW) "bmp" 200).diags =
      [Diag.errUnsupportedFormat "bmp"] :=
  (C7_unsupported_format_fails docW "bmp" 200 (by decide) (by decide)).2
    pageW [pageW] pixW rfl rfl

/-- C8 counterexample: three different failure classes (unopenable
document, unsupported format, page-render failure) all return the same
value None, so the caller cannot tell them apart from the returned value
alone. -/
theorem C8_counterexample :
    (pdf_to_images none "png" 200).result = none ∧
    (pdf_to_images (some docW) "bmp" 200).result = none ∧
    (pdf_to_images (some docBad) "png" 200).result = none := by decide

/-- C8 (amended): failures of both conversion functions uniformly return
None; the error classes are distinguished only by the displayed
diagnostics, of which at least one always accompanies a failure. -/
theorem C8_uniform_none_with_diagnostics :
    (∀ pdf fmt dpi, (pdf_to_images pdf fmt dpi).result = none →
        (pdf_to_images pdf fmt dpi).diags ≠ []) ∧
    (∀ files, (images_to_pdf files).result = none →
        (images_to_pdf files).diags ≠ []) := by
  constructor
  · intro pdf fmt dpi h
    cases pdf with
    | none => simp [pdf_to_images]
    | some doc =>
      cases hr : rasterPages fmt dpi doc.pages 0 with
      | error d => simp [pdf_to_images, hr]
      | ok l => simp [pdf_to_images, hr] at h
  · intro files h
    cases files with
    | nil => simp [images_to_pdf]
    | cons f rest =>
      cases hfm : (f :: rest).filterMap loadNormalized with
      | nil =>
        rw [images_to_pdf_none (f :: rest) (by simp) hfm]
        simp
      | cons a as =>
        rw [images_to_pdf_some (f :: rest) a as (by simp) hfm] at h
        simp at h

/-- Witness for C8 (amended): the failed document open surfaces a
diagnostic. -/
theorem C8_witness : (pdf_to_images none "png" 200).diags ≠ [] :=
  C8_uniform_none_with_diagnostics.1 none "png" 200 rfl

/-- C9: feeding the full PNG output of the rasterizer back through the
assembler yields a PDF with as many pages as the source document. -/
theorem C9_roundtrip_page_count (doc : PdfDoc) (dpi : Nat)
    (hne : doc.pages ≠ []) (hwf : ∀ p ∈ doc.pages, (p.render dpi).isSome) :
    ∃ l out, (pdf_to_images (some doc) "png" dpi).result = some l ∧
      (images_to_pdf (l.map rasterOutputToUpload)).result = some out ∧
      out.pages.length = doc.pages.length := by
  obtain ⟨l, hl, hlen, _⟩ :=
    rasterPages_ok "png" dpi (Or.inl lowerStr_png) doc.pages 0 hwf
  have hres : (pdf_to_images (some doc) "png" dpi).result = some l := by
    simp [pdf_to_images, hl]
  have hfm : (l.map rasterOutputToUpload).filterMap loadNormalized =
      l.map (fun p => normalizeImg p.2.image) := by
    rw [List.filterMap_map]
    exact List.filterMap_eq_map_iff_forall_eq_some.mpr (fun x _ => rfl)
  have hlne : l ≠ [] := by
    intro hc
    rw [hc] at hlen
    exact hne (List.length_eq_zero.mp hlen.symm)
  have hne2 : l.map rasterOutputToUpload ≠ [] := by
    intro hc
    exact hlne (List.map_eq_nil_iff.mp hc)
  have hdec2 : ∀ f ∈ l.map rasterOutputToUpload, (f.decode).isSome := by
    intro f hf
    obtain ⟨p, hp, rfl⟩ := List.mem_map.mp hf
    rfl
  have hfm2 := filterMap_loadNormalized_ne_nil (l.map rasterOutputToUpload) hne2 hdec2
  obtain ⟨a, as, ha⟩ := List.exists_cons_of_ne_nil hfm2
  refine ⟨l, { resolution := 100, pages := a :: as }, hres, ?_, ?_⟩
  · rw [images_to_pdf_some (l.map rasterOutputToUpload) a as hne2 ha]
  · show (a :: as).length = _
    rw [← ha, hfm]
    simp [hlen]

/-- Witness for C9 at the concrete two-page document. -/
theorem C9_witness :
    ∃ l out, (pdf_to_images (some docW) "png" 200).result = some l ∧
      (images_to_pdf (l.map rasterOutputToUpload)).result = some out ∧
      out.pages.length = docW.pages.length :=
  C9_roundtrip_page_count docW 200 (List.cons_ne_nil _ _) (by decide)

/-- C10: the format argument is matched case-insensitively: any format
with a supported lowercasing behaves exactly like its lowercase form, in
returned pairs, diagnostics and close behavior alike. -/
theorem C10_format_case_insensitive (pdf : Option PdfDoc) (fmt : String) (dpi : Nat)
    (h : lowerStr fmt = "png" ∨ lowerStr fmt = "jpg") :
    pdf_to_images pdf fmt dpi = pdf_to_images pdf (lowerStr fmt) dpi := by
  have hll : lowerStr fmt = lowerStr (lowerStr fmt) := by
    rcases h with h2 | h2 <;> rw [h2] <;> decide
  cases pdf with
  | none => rfl
  | some doc =>
    simp only [pdf_to_images]
    rw [rasterPages_congr fmt (lowerStr fmt) dpi hll h doc.pages 0]

/-- Witness for C10: the uppercase PNG literal behaves like png. -/
theorem C10_witness :
    pdf_to_images (some docW) "PNG" 200 = pdf_to_images (some docW) "png" 200 := by
  have h := C10_format_case_insensitive (some docW) "PNG" 200 (Or.inl (by decide))
  rw [show lowerStr "PNG" = "png" from by decide] at h
  exact h

end App
